import Mathlib

/-!
Verification of the high-card game engine (`createGameLogic` in
`src/game/gameLogic.js`).  The engine closure owns three mutable variables:
`players` (an array of player objects), `currentRound` (a number), and
`stateHistory` (an array of snapshots).  We embed that state as the
structure `EngineState` and each operation of the returned object as a pure
function on it.  The random card drawn for the i-th player in a round
(`Math.floor(Math.random() * MAX_CARD_VALUE) + 1`) is modelled by an
arbitrary oracle `rand : Nat -> Nat`, the draw being `rand i % MAX_CARD_VALUE
+ 1`, which ranges over exactly the values `1 .. MAX_CARD_VALUE` the source
can produce.  JS numbers are modelled as `Int` (every number the engine
itself ever stores is an integer).

Two further models appear below for the claims that need them: a `JSValue`
model of untyped JavaScript values for the argument validation in
`setGameState`, and a small heap model (`EngineH`) of object references for
the aliasing behaviour of `getPlayers` versus the JSON deep copy in
`getGameState`.
-/

/-- A player object `{ name, cardHeld, score }`; `cardHeld` is `null`
(`none`) or a number. -/
structure Player where
  name : String
  cardHeld : Option Int
  score : Int
deriving Repr, DecidableEq

/-- The snapshot object built by `getGameState` (lines 594-600):
`{ players, currentRound, totalRounds }`. -/
structure Snapshot where
  players : List Player
  currentRound : Int
  totalRounds : Nat
deriving Repr, DecidableEq

/-- The three closure variables of `createGameLogic` (lines 521-537):
`players`, `currentRound` and `stateHistory`. -/
structure EngineState where
  players : List Player
  currentRound : Int
  stateHistory : List Snapshot
deriving Repr, DecidableEq

/-- `initialPlayers` (lines 509-514). -/
def initialPlayers : List Player :=
  [ { name := "Player 1", cardHeld := none, score := 0 },
    { name := "Player 2", cardHeld := none, score := 0 },
    { name := "Player 3", cardHeld := none, score := 0 },
    { name := "Player 4", cardHeld := none, score := 0 } ]

/-- `DECK_SIZE` (line 515). -/
def DECK_SIZE : Nat := 40

/-- `MAX_CARD_VALUE` (line 516). -/
def MAX_CARD_VALUE : Nat := 12

/-- `POINTS_PER_SCORE` (line 517). -/
def POINTS_PER_SCORE : Int := 1

/-- `NUM_PLAYERS = initialPlayers.length` (line 518). -/
def NUM_PLAYERS : Nat := initialPlayers.length

/-- `TOTAL_ROUNDS = Math.floor(DECK_SIZE / NUM_PLAYERS)` (line 519);
`Nat` division is the floor. -/
def TOTAL_ROUNDS : Nat := DECK_SIZE / NUM_PLAYERS

/-- The fresh engine built by `createGameLogic()` with no saved state
(lines 533-537): a deep copy of `initialPlayers`, round 0, empty history. -/
def initialEngine : EngineState :=
  { players := initialPlayers, currentRound := 0, stateHistory := [] }

/-- `modifyPlayerName` (lines 539-543): in-place rename when
`players[playerIndex]` exists (is truthy) and the new name is non-empty;
otherwise a silent no-op. -/
def modifyPlayerName (playerIndex : Nat) (newName : String) (s : EngineState) :
    EngineState :=
  if h : playerIndex < s.players.length ∧ newName ≠ "" then
    let p := s.players.get ⟨playerIndex, h.1⟩
    { s with players := s.players.set playerIndex { p with name := newName } }
  else s

/-- `drawCards` (lines 545-549): the `for (const player of players)` loop,
assigning `Math.floor(Math.random() * MAX_CARD_VALUE) + 1` to each player's
`cardHeld` in order; `i` is the loop position and `rand` the randomness
oracle. -/
def drawCards (rand : Nat → Nat) : Nat → List Player → List Player
  | _, [] => []
  | i, p :: ps =>
      { p with cardHeld := some ((rand i % MAX_CARD_VALUE + 1 : Nat) : Int) }
        :: drawCards rand (i + 1) ps

/-- The first loop of `resolveRound` (lines 552-557): fold computing
`biggestCardOfRound`, starting from `0`.  The JS comparison
`player.cardHeld > biggestCardOfRound` coerces `null` to `0`, hence
`Option.getD 0`; when the branch is taken the compared value is a number
(a `null` card coerces to `0`, which is never greater than the
accumulator, since the accumulator starts at `0` and only ever increases),
so the value assigned equals `p.cardHeld.getD 0`. -/
def bstep (acc : Int) (p : Player) : Int :=
  if p.cardHeld.getD 0 > acc then p.cardHeld.getD 0 else acc

/-- The fold itself, starting from `biggestCardOfRound = 0` (line 552). -/
def biggestCard (ps : List Player) : Int := ps.foldl bstep 0

/-- Sum of the roster's scores (used to state the scoring claims). -/
def sumScores (ps : List Player) : Int := (ps.map Player.score).sum

/-- The strict comparison `player.cardHeld === biggestCardOfRound`
(line 559): `null === number` is false, `number === number` is numeric
equality. -/
def cardEq (c : Option Int) (m : Int) : Bool :=
  match c with
  | some v => v == m
  | none => false

/-- The second loop of `resolveRound` (lines 558-562): every player whose
`cardHeld === biggestCardOfRound` gains `POINTS_PER_SCORE`. -/
def scoreRoster (ps : List Player) : List Player :=
  ps.map (fun p =>
    if cardEq p.cardHeld (biggestCard ps) then
      { p with score := p.score + POINTS_PER_SCORE }
    else p)

/-- `resolveRound` (lines 551-564): award the round's points, then
`currentRound++` (line 563). -/
def resolveRound (s : EngineState) : EngineState :=
  { s with players := scoreRoster s.players, currentRound := s.currentRound + 1 }

/-- `getGameState` (lines 594-600): a snapshot object whose `players` is a
JSON deep copy of the roster (value-identical at this typed level) together
with `currentRound` and `TOTAL_ROUNDS`. -/
def getGameState (s : EngineState) : Snapshot :=
  { players := s.players, currentRound := s.currentRound, totalRounds := TOTAL_ROUNDS }

/-- `runRound` (lines 566-576): when `currentRound < TOTAL_ROUNDS`, push the
pre-round snapshot onto `stateHistory`, draw cards, resolve, return `true`;
otherwise return `false` without touching anything. -/
def runRound (rand : Nat → Nat) (s : EngineState) : Bool × EngineState :=
  if s.currentRound < (TOTAL_ROUNDS : Int) then
    let pushed : EngineState :=
      { s with stateHistory := s.stateHistory ++ [getGameState s] }
    let drawn : EngineState :=
      { pushed with players := drawCards rand 0 pushed.players }
    (true, resolveRound drawn)
  else (false, s)

/-- `undoLastRound` (lines 578-585): if `stateHistory` is non-empty, pop its
last entry and `setGameState(previousState)`; a popped snapshot always
passes `setGameState`'s validation (its `players` is an array, hence
truthy, and its `currentRound` is a number), so the restore is
unconditional: `players` and `currentRound` are overwritten with the
snapshot's fields while the (already popped) history is otherwise
untouched.  Returns `false` with no mutation when the history is empty. -/
def undoLastRound (s : EngineState) : Bool × EngineState :=
  match s.stateHistory.getLast? with
  | some prev =>
      (true, { players := prev.players, currentRound := prev.currentRound,
               stateHistory := s.stateHistory.dropLast })
  | none => (false, s)

/-- The state-mutating effect of `setGameState` (lines 602-609) when called
with an argument that is already a well-typed snapshot: any roster array is
truthy and any integer `currentRound` has `typeof === 'number'`, so the
validation passes, `players` is replaced by a deep copy of the given roster
and `currentRound` by the given number; `stateHistory` is not touched.
(The untyped validation itself is modelled separately on `JSValue` below.) -/
def setGameStateT (ps : List Player) (r : Int) (s : EngineState) : EngineState :=
  { s with players := ps, currentRound := r }

/-- `resetGame` (lines 611-615): deep copy of `initialPlayers`, round 0,
history cleared. -/
def resetGame (_s : EngineState) : EngineState :=
  { players := initialPlayers, currentRound := 0, stateHistory := [] }

/-- Accessor `getPlayers` (line 622) at the value level. -/
def getPlayers (s : EngineState) : List Player := s.players

/-- Accessor `getCurrentRound` (line 627). -/
def getCurrentRound (s : EngineState) : Int := s.currentRound

/-- Accessor `getTotalRounds` (line 626). -/
def getTotalRounds : Nat := TOTAL_ROUNDS

/-- One successful `runRound` increments `currentRound` (needed before the
loop below can be defined). -/
theorem runRound_currentRound_of_lt (rand : Nat → Nat) (s : EngineState)
    (h : s.currentRound < (TOTAL_ROUNDS : Int)) :
    (runRound rand s).2.currentRound = s.currentRound + 1 := by
  simp [runRound, h, resolveRound]

/-- The body of `runGameLoop`'s `while` loop, run for at most `fuel`
iterations; the round used to index the randomness stream is the current
round at entry to the iteration.  `runGameLoop` below supplies exactly
enough fuel for the loop to run until its guard `currentRound <
TOTAL_ROUNDS` fails, so this equals the source's unbounded `while`. -/
def runGameLoopAux (rands : Nat → Nat → Nat) : Nat → EngineState → EngineState
  | 0, s => s
  | fuel + 1, s =>
      if s.currentRound < (TOTAL_ROUNDS : Int) then
        runGameLoopAux rands fuel (runRound (rands s.currentRound.toNat) s).2
      else s

/-- `runGameLoop` (lines 587-592): `while (currentRound < TOTAL_ROUNDS)
runRound()`.  Each successful iteration increments `currentRound` by one,
so from any integer `currentRound` the loop runs exactly
`(TOTAL_ROUNDS - currentRound).toNat` times; that quantity is passed as
fuel, making the bounded recursion equal to the source's `while` loop on
every state. -/
def runGameLoop (rands : Nat → Nat → Nat) (s : EngineState) : EngineState :=
  runGameLoopAux rands ((TOTAL_ROUNDS : Int) - s.currentRound).toNat s

/-- The value returned by `runGameLoop` (line 591): the final roster. -/
def runGameLoopRet (rands : Nat → Nat → Nat) (s : EngineState) : List Player :=
  (runGameLoop rands s).players

/-- Closed form of a successful `runRound`. -/
theorem runRound_eq_of_lt (rand : Nat → Nat) (s : EngineState)
    (h : s.currentRound < (TOTAL_ROUNDS : Int)) :
    runRound rand s =
      (true,
        { players := scoreRoster (drawCards rand 0 s.players),
          currentRound := s.currentRound + 1,
          stateHistory := s.stateHistory ++ [getGameState s] }) := by
  simp [runRound, h, resolveRound]

/-- C1: if `currentRound < totalRounds` then `runRound` returns `true` and
increments `currentRound` by exactly 1; if `currentRound = totalRounds` it
returns `false` and leaves the whole state (players, round, history)
unchanged. -/
theorem runRound_steps_iff_incomplete (s : EngineState) (rand : Nat → Nat) :
    (s.currentRound < (TOTAL_ROUNDS : Int) →
      (runRound rand s).1 = true ∧
      (runRound rand s).2.currentRound = s.currentRound + 1) ∧
    (s.currentRound = (TOTAL_ROUNDS : Int) → runRound rand s = (false, s)) := by
  constructor
  · intro h
    exact ⟨by simp [runRound, h], runRound_currentRound_of_lt rand s h⟩
  · intro h
    simp [runRound, h]

/-- Witness for C1: a fresh engine steps and bumps the round; an engine at
round `totalRounds` is left untouched with a `false` result. -/
theorem runRound_steps_iff_incomplete_witness :
    ((runRound (fun _ => 0) initialEngine).1 = true ∧
     (runRound (fun _ => 0) initialEngine).2.currentRound =
       initialEngine.currentRound + 1) ∧
    runRound (fun _ => 0) (setGameStateT initialPlayers (TOTAL_ROUNDS : Int) initialEngine)
      = (false, setGameStateT initialPlayers (TOTAL_ROUNDS : Int) initialEngine) :=
  ⟨(runRound_steps_iff_incomplete initialEngine (fun _ => 0)).1 (by decide),
   (runRound_steps_iff_incomplete
      (setGameStateT initialPlayers (TOTAL_ROUNDS : Int) initialEngine)
      (fun _ => 0)).2 (by decide)⟩

/-- C3: after a successful `runRound`, `undoLastRound` returns `true` and
restores the entire pre-round state (roster with names, cards and scores,
round counter, and history stack); with empty history `undoLastRound`
returns `false` and mutates nothing. -/
theorem undo_reverts_runRound (s t : EngineState) (rand : Nat → Nat)
    (hs : s.currentRound < (TOTAL_ROUNDS : Int)) (ht : t.stateHistory = []) :
    (runRound rand s).1 = true ∧
    undoLastRound (runRound rand s).2 = (true, s) ∧
    undoLastRound t = (false, t) := by
  obtain ⟨ps, r, hist⟩ := s
  refine ⟨by simp [runRound, hs], ?_, ?_⟩
  · rw [runRound_eq_of_lt rand _ hs]
    simp [undoLastRound, getGameState]
  · simp [undoLastRound, ht]

/-- Witness for C3: on a fresh engine, one round followed by one undo is the
identity, and undo on the fresh engine itself fails without mutation. -/
theorem undo_reverts_runRound_witness :
    (runRound (fun _ => 3) initialEngine).1 = true ∧
    undoLastRound (runRound (fun _ => 3) initialEngine).2 = (true, initialEngine) ∧
    undoLastRound initialEngine = (false, initialEngine) :=
  undo_reverts_runRound initialEngine initialEngine (fun _ => 3)
    (by decide) (by decide)

/-- The fold's accumulator never decreases. -/
theorem le_foldl_bstep (ps : List Player) :
    ∀ acc : Int, acc ≤ ps.foldl bstep acc := by
  induction ps with
  | nil => intro acc; exact le_refl acc
  | cons p ps ih =>
      intro acc
      refine le_trans ?_ (ih (bstep acc p))
      by_cases h : p.cardHeld.getD 0 > acc
      · simp only [bstep, if_pos h]
        exact le_of_lt h
      · simp only [bstep, if_neg h]
        exact le_rfl

/-- Every card (with `null` coerced to 0, as in the source's comparison) is
bounded by the fold's result. -/
theorem card_le_foldl_bstep (ps : List Player) :
    ∀ acc : Int, ∀ p ∈ ps, p.cardHeld.getD 0 ≤ ps.foldl bstep acc := by
  induction ps with
  | nil => intro acc p hp; cases hp
  | cons q ps ih =>
      intro acc p hp
      rcases List.mem_cons.mp hp with h | h
      · subst h
        refine le_trans ?_ (le_foldl_bstep ps (bstep acc p))
        by_cases h : p.cardHeld.getD 0 > acc
        · simp only [List.foldl_cons, bstep, if_pos h, le_refl]
        · simp only [List.foldl_cons, bstep, if_neg h]
          exact le_of_not_lt h
      · exact ih (bstep acc q) p h

/-- The fold's result is the starting accumulator or one of the cards. -/
theorem foldl_bstep_attained (ps : List Player) :
    ∀ acc : Int, ps.foldl bstep acc = acc ∨
      ∃ p ∈ ps, p.cardHeld.getD 0 = ps.foldl bstep acc := by
  induction ps with
  | nil => intro acc; exact Or.inl rfl
  | cons q ps ih =>
      intro acc
      rcases ih (bstep acc q) with h | h
      · by_cases hq : q.cardHeld.getD 0 > acc
        · refine Or.inr ⟨q, List.mem_cons_self q ps, ?_⟩
          simp only [List.foldl_cons]
          rw [h]
          simp [bstep, if_pos hq]
        · refine Or.inl ?_
          simp only [List.foldl_cons]
          rw [h]
          simp [bstep, if_neg hq]
      · obtain ⟨p, hp, hpe⟩ := h
        exact Or.inr ⟨p, List.mem_cons_of_mem q hp, hpe⟩

/-- Every card produced by `drawCards` lies in `[1, MAX_CARD_VALUE]`. -/
theorem drawCards_card_mem (rand : Nat → Nat) :
    ∀ (i : Nat) (ps : List Player), ∀ q ∈ drawCards rand i ps,
      ∃ v : Int, q.cardHeld = some v ∧ 1 ≤ v ∧ v ≤ (MAX_CARD_VALUE : Int) := by
  intro i ps
  induction ps generalizing i with
  | nil => intro q hq; cases hq
  | cons p ps ih =>
      intro q hq
      rcases List.mem_cons.mp hq with h | h
      · subst h
        refine ⟨((rand i % MAX_CARD_VALUE + 1 : Nat) : Int), rfl, ?_, ?_⟩
        · exact_mod_cast Nat.succ_le_succ (Nat.zero_le _)
        · exact_mod_cast Nat.succ_le_of_lt (Nat.mod_lt _ (by decide))
      · exact ih (i + 1) q h

/-- `drawCards` changes only `cardHeld`: the scores are untouched. -/
theorem drawCards_map_score (rand : Nat → Nat) :
    ∀ (i : Nat) (ps : List Player),
      (drawCards rand i ps).map Player.score = ps.map Player.score := by
  intro i ps
  induction ps generalizing i with
  | nil => rfl
  | cons p ps ih => simp [drawCards, ih]

/-- `drawCards` preserves the roster's length. -/
theorem drawCards_length (rand : Nat → Nat) :
    ∀ (i : Nat) (ps : List Player), (drawCards rand i ps).length = ps.length := by
  intro i ps
  induction ps generalizing i with
  | nil => rfl
  | cons p ps ih => simp [drawCards, ih]

/-- Scoring adds exactly `POINTS_PER_SCORE` to each player holding the
maximum and leaves the others, so the total grows by the number of
max-holders. -/
theorem sumScores_bump (m : Int) :
    ∀ ps : List Player,
      sumScores (ps.map (fun p =>
        if cardEq p.cardHeld m then { p with score := p.score + POINTS_PER_SCORE }
        else p)) =
      sumScores ps + ((ps.filter (fun p => cardEq p.cardHeld m)).length : Int) := by
  intro ps
  induction ps with
  | nil => rfl
  | cons p ps ih =>
      by_cases h : cardEq p.cardHeld m = true
      · simp only [sumScores, List.map_cons, List.sum_cons, if_pos h,
          List.filter_cons, h, if_true, List.length_cons, POINTS_PER_SCORE]
            at ih ⊢
        push_cast at ih ⊢
        omega
      · simp only [Bool.not_eq_true] at h
        simp only [sumScores, List.map_cons, List.sum_cons, h,
          List.filter_cons, Bool.false_eq_true, if_false, POINTS_PER_SCORE]
            at ih ⊢
        omega

/-- On a non-empty freshly drawn roster, some player holds the fold's
maximum (every draw is at least 1, so the fold leaves its start value 0). -/
theorem drawn_biggest_attained (rand : Nat → Nat) (ps : List Player)
    (hne : ps ≠ []) :
    ∃ p ∈ drawCards rand 0 ps,
      p.cardHeld = some (biggestCard (drawCards rand 0 ps)) := by
  rcases foldl_bstep_attained (drawCards rand 0 ps) 0 with h0 | h
  · exfalso
    have hnil : drawCards rand 0 ps ≠ [] := by
      intro hd
      apply hne
      have := drawCards_length rand 0 ps
      rw [hd] at this
      exact List.eq_nil_of_length_eq_zero this.symm
    obtain ⟨q, hq⟩ := List.exists_mem_of_ne_nil _ hnil
    obtain ⟨v, hv, h1, _⟩ := drawCards_card_mem rand 0 ps q hq
    have hle := card_le_foldl_bstep (drawCards rand 0 ps) 0 q hq
    rw [hv] at hle
    simp only [Option.getD_some] at hle
    rw [h0] at hle
    omega
  · obtain ⟨p, hp, hpe⟩ := h
    obtain ⟨v, hv, _, _⟩ := drawCards_card_mem rand 0 ps p hp
    refine ⟨p, hp, ?_⟩
    rw [hv] at hpe ⊢
    simp only [Option.getD_some] at hpe
    rw [hpe]
    rfl

/-- C2: in every successful `runRound`, with `maxCard` the maximum
`cardHeld` after the draw (the source's fold both bounds every card and is
attained by some player), every player holding `maxCard` gains exactly
`POINTS_PER_SCORE`, every other player's score is unchanged (the draw
itself changes no score), and the total score gain of the round equals the
number of players holding `maxCard`. -/
theorem round_awards_all_max_holders (s : EngineState) (rand : Nat → Nat)
    (hs : s.currentRound < (TOTAL_ROUNDS : Int)) :
    (∀ p ∈ drawCards rand 0 s.players,
        p.cardHeld.getD 0 ≤ biggestCard (drawCards rand 0 s.players)) ∧
    (s.players ≠ [] →
      ∃ p ∈ drawCards rand 0 s.players,
        p.cardHeld = some (biggestCard (drawCards rand 0 s.players))) ∧
    (drawCards rand 0 s.players).map Player.score = s.players.map Player.score ∧
    (runRound rand s).2.players =
      (drawCards rand 0 s.players).map (fun p =>
        if cardEq p.cardHeld (biggestCard (drawCards rand 0 s.players)) then
          { p with score := p.score + POINTS_PER_SCORE }
        else p) ∧
    sumScores (runRound rand s).2.players =
      sumScores s.players +
        (((drawCards rand 0 s.players).filter
           (fun p => cardEq p.cardHeld
              (biggestCard (drawCards rand 0 s.players)))).length : Int) := by
  have hub : ∀ p ∈ drawCards rand 0 s.players,
      p.cardHeld.getD 0 ≤ biggestCard (drawCards rand 0 s.players) :=
    fun p hp => card_le_foldl_bstep (drawCards rand 0 s.players) 0 p hp
  have hplayers : (runRound rand s).2.players =
      scoreRoster (drawCards rand 0 s.players) := by
    rw [runRound_eq_of_lt rand s hs]
  have hsum0 : sumScores (drawCards rand 0 s.players) = sumScores s.players := by
    unfold sumScores
    rw [drawCards_map_score]
  refine ⟨hub, ?_, drawCards_map_score rand 0 s.players, ?_, ?_⟩
  · intro hne
    exact drawn_biggest_attained rand s.players hne
  · rw [hplayers]
    simp [scoreRoster]
  · rw [hplayers]
    unfold scoreRoster
    rw [sumScores_bump, hsum0]

/-- Witness for C2: one concrete successful round on the fresh engine with a
deterministic oracle (cards 1,2,3,4) satisfies the scoring equation. -/
theorem round_awards_all_max_holders_witness :
    initialEngine.currentRound < (TOTAL_ROUNDS : Int) ∧
    sumScores (runRound (fun i => i) initialEngine).2.players =
      sumScores initialEngine.players +
        (((drawCards (fun i => i) 0 initialEngine.players).filter
           (fun p => cardEq p.cardHeld
              (biggestCard (drawCards (fun i => i) 0 initialEngine.players)))).length
          : Int) :=
  ⟨by decide,
   (round_awards_all_max_holders initialEngine (fun i => i) (by decide)).2.2.2.2⟩

/-- Number of players holding the round's maximum card when a roster is
drawn with oracle `rand`: the accounting quantity of the specification's
"sum over rounds of the number of tied max-holders". -/
def roundWinners (rand : Nat → Nat) (ps : List Player) : Nat :=
  ((drawCards rand 0 ps).filter
    (fun p => cardEq p.cardHeld (biggestCard (drawCards rand 0 ps)))).length

/-- Winner counts accumulated along `runGameLoop`'s iterations (same
recursion scheme and same fuel as `runGameLoopAux`). -/
def totalWinnersAux (rands : Nat → Nat → Nat) : Nat → EngineState → Nat
  | 0, _ => 0
  | fuel + 1, s =>
      if s.currentRound < (TOTAL_ROUNDS : Int) then
        roundWinners (rands s.currentRound.toNat) s.players +
          totalWinnersAux rands fuel (runRound (rands s.currentRound.toNat) s).2
      else 0

/-- Total winner count over the whole run of `runGameLoop`. -/
def totalWinners (rands : Nat → Nat → Nat) (s : EngineState) : Nat :=
  totalWinnersAux rands ((TOTAL_ROUNDS : Int) - s.currentRound).toNat s

/-- `scoreRoster` only maps over the roster, so the length is kept. -/
theorem scoreRoster_length (ps : List Player) :
    (scoreRoster ps).length = ps.length := by
  simp [scoreRoster]

/-- One round's scoring adds exactly the round's winner count to the score
total. -/
theorem sumScores_step (rand : Nat → Nat) (ps : List Player) :
    sumScores (scoreRoster (drawCards rand 0 ps)) =
      sumScores ps + (roundWinners rand ps : Int) := by
  unfold scoreRoster roundWinners
  rw [sumScores_bump]
  have hsum0 : sumScores (drawCards rand 0 ps) = sumScores ps := by
    unfold sumScores
    rw [drawCards_map_score]
  rw [hsum0]

/-- A non-empty roster always has at least one round winner. -/
theorem roundWinners_pos (rand : Nat → Nat) (ps : List Player)
    (hne : ps ≠ []) : 1 ≤ roundWinners rand ps := by
  obtain ⟨p, hp, hpe⟩ := drawn_biggest_attained rand ps hne
  have hmem : p ∈ (drawCards rand 0 ps).filter
      (fun q => cardEq q.cardHeld (biggestCard (drawCards rand 0 ps))) := by
    rw [List.mem_filter]
    refine ⟨hp, ?_⟩
    rw [hpe]
    simp [cardEq]
  unfold roundWinners
  exact List.length_pos.mpr (List.ne_nil_of_mem hmem)

/-- All scores nonpositive gives a nonpositive total. -/
theorem sumScores_nonpos (ps : List Player)
    (h : ∀ p ∈ ps, p.score ≤ 0) : sumScores ps ≤ 0 := by
  induction ps with
  | nil => simp [sumScores]
  | cons p ps ih =>
      have hp := h p (List.mem_cons_self p ps)
      have hps := ih (fun q hq => h q (List.mem_cons_of_mem p hq))
      simp only [sumScores, List.map_cons, List.sum_cons]
      simp only [sumScores] at hps
      omega

/-- A positive score total forces some player's score to be positive. -/
theorem exists_pos_score_of_sum_pos (ps : List Player)
    (h : 0 < sumScores ps) : ∃ p ∈ ps, 0 < p.score := by
  by_contra hc
  push_neg at hc
  have := sumScores_nonpos ps (fun p hp => by
    have := hc p hp
    omega)
  omega

/-- Master induction for the loop: run with exactly enough fuel to reach
`TOTAL_ROUNDS`, the loop ends at `TOTAL_ROUNDS`, pushes one history entry
per iteration, keeps the roster's length, adds exactly the accumulated
winner count to the score total, and (for a non-empty roster) gains at
least one winner per iteration. -/
theorem runGameLoopAux_spec (rands : Nat → Nat → Nat) :
    ∀ (fuel : Nat) (s : EngineState),
      s.currentRound + (fuel : Int) = (TOTAL_ROUNDS : Int) →
      (runGameLoopAux rands fuel s).currentRound = (TOTAL_ROUNDS : Int) ∧
      (runGameLoopAux rands fuel s).stateHistory.length =
        s.stateHistory.length + fuel ∧
      (runGameLoopAux rands fuel s).players.length = s.players.length ∧
      sumScores (runGameLoopAux rands fuel s).players =
        sumScores s.players + (totalWinnersAux rands fuel s : Int) ∧
      (s.players ≠ [] → fuel ≤ totalWinnersAux rands fuel s) := by
  intro fuel
  induction fuel with
  | zero =>
      intro s h
      have h0 : s.currentRound = (TOTAL_ROUNDS : Int) := by
        push_cast at h
        omega
      simp [runGameLoopAux, totalWinnersAux, h0]
  | succ fuel ih =>
      intro s h
      have hlt : s.currentRound < (TOTAL_ROUNDS : Int) := by
        push_cast at h
        omega
      have hstep := runRound_eq_of_lt (rands s.currentRound.toNat) s hlt
      have hnext : (runRound (rands s.currentRound.toNat) s).2 =
          { players := scoreRoster (drawCards (rands s.currentRound.toNat) 0 s.players),
            currentRound := s.currentRound + 1,
            stateHistory := s.stateHistory ++ [getGameState s] } := by
        rw [hstep]
      have ihs := ih (runRound (rands s.currentRound.toNat) s).2 (by
        rw [hnext]
        push_cast at h ⊢
        omega)
      rw [hnext] at ihs
      simp only [runGameLoopAux, totalWinnersAux, if_pos hlt]
      rw [hnext]
      obtain ⟨i1, i2, i3, i4, i5⟩ := ihs
      refine ⟨i1, ?_, ?_, ?_, ?_⟩
      · rw [i2]
        simp only [List.length_append, List.length_cons, List.length_nil]
        omega
      · rw [i3, scoreRoster_length, drawCards_length]
      · rw [i4, sumScores_step]
        push_cast
        ring
      · intro hne
        have hlen : (scoreRoster (drawCards (rands s.currentRound.toNat) 0
            s.players)).length = s.players.length := by
          rw [scoreRoster_length, drawCards_length]
        have hne2 : scoreRoster (drawCards (rands s.currentRound.toNat) 0
            s.players) ≠ [] := by
          intro hd
          apply hne
          rw [hd] at hlen
          exact List.eq_nil_of_length_eq_zero hlen.symm
        have h1 := roundWinners_pos (rands s.currentRound.toNat) s.players hne
        have h2 := i5 hne2
        omega

/-- All scores nonnegative gives a nonnegative total. -/
theorem sumScores_nonneg (ps : List Player)
    (h : ∀ p ∈ ps, 0 ≤ p.score) : 0 ≤ sumScores ps := by
  induction ps with
  | nil => simp [sumScores]
  | cons p ps ih =>
      have hp := h p (List.mem_cons_self p ps)
      have hps := ih (fun q hq => h q (List.mem_cons_of_mem p hq))
      simp only [sumScores, List.map_cons, List.sum_cons]
      simp only [sumScores] at hps
      omega

/-- C6 (amended): from any state whose round has not passed `totalRounds`,
`runGameLoop` ends with `currentRound == totalRounds`, pushes exactly one
history entry per round stepped (so the run stays undoable round by round)
and returns the final roster; from a fresh-start state (round 0, non-empty
roster, nonnegative scores) the final score total equals the initial total
plus the sum over the rounds played of the number of tied max-card holders
of that round, that sum is at least `totalRounds`, and at least one player
finishes with a positive score. -/
theorem runGameLoop_completes (rands : Nat → Nat → Nat) (t s : EngineState)
    (ht : t.currentRound ≤ (TOTAL_ROUNDS : Int))
    (h0 : s.currentRound = 0) (hne : s.players ≠ [])
    (hnn : ∀ p ∈ s.players, 0 ≤ p.score) :
    (runGameLoop rands t).currentRound = (TOTAL_ROUNDS : Int) ∧
    (runGameLoop rands t).stateHistory.length =
      t.stateHistory.length + ((TOTAL_ROUNDS : Int) - t.currentRound).toNat ∧
    runGameLoopRet rands t = (runGameLoop rands t).players ∧
    sumScores (runGameLoop rands s).players =
      sumScores s.players + (totalWinners rands s : Int) ∧
    TOTAL_ROUNDS ≤ totalWinners rands s ∧
    ∃ p ∈ (runGameLoop rands s).players, 0 < p.score := by
  have hfuel_t : t.currentRound +
      ((((TOTAL_ROUNDS : Int) - t.currentRound).toNat : Nat) : Int) =
      (TOTAL_ROUNDS : Int) := by
    rw [Int.toNat_of_nonneg (by omega)]
    ring
  have hfuel_s : s.currentRound +
      ((((TOTAL_ROUNDS : Int) - s.currentRound).toNat : Nat) : Int) =
      (TOTAL_ROUNDS : Int) := by
    rw [h0]
    simp
  have hfs : (((TOTAL_ROUNDS : Int) - s.currentRound).toNat : Nat) =
      TOTAL_ROUNDS := by
    rw [h0]
    simp
  have hspec_t := runGameLoopAux_spec rands
    (((TOTAL_ROUNDS : Int) - t.currentRound).toNat) t hfuel_t
  have hspec_s := runGameLoopAux_spec rands
    (((TOTAL_ROUNDS : Int) - s.currentRound).toNat) s hfuel_s
  have htw : TOTAL_ROUNDS ≤ totalWinners rands s := by
    unfold totalWinners
    have := hspec_s.2.2.2.2 hne
    omega
  refine ⟨hspec_t.1, hspec_t.2.1, rfl, hspec_s.2.2.2.1, htw, ?_⟩
  have hsum : sumScores (runGameLoop rands s).players =
      sumScores s.players + (totalWinners rands s : Int) := hspec_s.2.2.2.1
  have hpos : 0 < sumScores (runGameLoop rands s).players := by
    have h1 := sumScores_nonneg s.players hnn
    have h2 : 0 < TOTAL_ROUNDS := by decide
    rw [hsum]
    have h3 : (TOTAL_ROUNDS : Int) ≤ (totalWinners rands s : Int) := by
      exact_mod_cast htw
    omega
  exact exists_pos_score_of_sum_pos _ hpos

/-- Witness for C6 (amended): a full run on the fresh engine with a
deterministic oracle reaches round `totalRounds`, leaves ten history
entries, and some player ends with a positive score. -/
theorem runGameLoop_completes_witness :
    (runGameLoop (fun _ i => i) initialEngine).currentRound = (TOTAL_ROUNDS : Int) ∧
    (runGameLoop (fun _ i => i) initialEngine).stateHistory.length =
      initialEngine.stateHistory.length +
        ((TOTAL_ROUNDS : Int) - initialEngine.currentRound).toNat ∧
    TOTAL_ROUNDS ≤ totalWinners (fun _ i => i) initialEngine ∧
    0 < sumScores (runGameLoop (fun _ i => i) initialEngine).players := by
  have h := runGameLoop_completes (fun _ i => i) initialEngine initialEngine
    (by decide) (by decide) (by decide) (by decide)
  refine ⟨h.1, h.2.1, h.2.2.2.2.1, ?_⟩
  have hsum := h.2.2.2.1
  have htw := h.2.2.2.2.1
  have hz : sumScores initialEngine.players = 0 := by decide
  have htr : 0 < TOTAL_ROUNDS := by decide
  have htwi : (TOTAL_ROUNDS : Int) ≤ (totalWinners (fun _ i => i) initialEngine : Int) := by
    exact_mod_cast htw
  rw [hsum, hz]
  have : (0 : Int) < (TOTAL_ROUNDS : Int) := by exact_mod_cast htr
  omega

/-- Counterexample to C6 as stated: `setGameState` accepts any numeric
round, and from an imported state at round `totalRounds + 1` the loop exits
immediately with `currentRound ≠ totalRounds`; from an imported state at
round `totalRounds` with all-zero scores, no player ends with a positive
score even though the game has at least one round. -/
theorem runGameLoop_completes_ce :
    (runGameLoop (fun _ _ => 0)
        (setGameStateT initialPlayers ((TOTAL_ROUNDS : Int) + 1)
          initialEngine)).currentRound ≠ (TOTAL_ROUNDS : Int) ∧
    (1 ≤ TOTAL_ROUNDS ∧
      ∀ p ∈ (runGameLoop (fun _ _ => 0)
          (setGameStateT initialPlayers (TOTAL_ROUNDS : Int)
            initialEngine)).players, ¬ 0 < p.score) := by
  decide

/-- History half of the reachability invariant: the stack's length equals
`currentRound` and the i-th snapshot was taken at round i. -/
def HistInv (s : EngineState) : Prop :=
  (s.stateHistory.length : Int) = s.currentRound ∧
  ∀ (i : Nat) (snap : Snapshot), s.stateHistory[i]? = some snap →
    snap.currentRound = (i : Int)

/-- Card half of the reachability invariant: at round 0 every card is null,
both in the live state and in every round-0 snapshot on the stack. -/
def CardInv (s : EngineState) : Prop :=
  (s.currentRound = 0 → ∀ p ∈ s.players, p.cardHeld = none) ∧
  ∀ snap ∈ s.stateHistory, snap.currentRound = 0 →
    ∀ p ∈ snap.players, p.cardHeld = none

/-- Joint inductive invariant for the import-free reachable states. -/
def EngInv (s : EngineState) : Prop := HistInv s ∧ CardInv s

/-- `undoLastRound` on empty history in closed form. -/
theorem undoLastRound_eq_none (s : EngineState)
    (h : s.stateHistory.getLast? = none) : undoLastRound s = (false, s) := by
  unfold undoLastRound
  rw [h]

/-- `undoLastRound` on non-empty history in closed form. -/
theorem undoLastRound_eq_some (s : EngineState) (prev : Snapshot)
    (h : s.stateHistory.getLast? = some prev) :
    undoLastRound s =
      (true, { players := prev.players, currentRound := prev.currentRound,
               stateHistory := s.stateHistory.dropLast }) := by
  unfold undoLastRound
  rw [h]

/-- The fresh engine satisfies the invariant. -/
theorem engInv_init : EngInv initialEngine := by
  refine ⟨⟨by simp [initialEngine], ?_⟩, ?_, ?_⟩
  · intro i snap hi
    simp [initialEngine] at hi
  · intro _
    decide
  · intro snap hm
    simp [initialEngine] at hm

/-- `runRound` preserves the invariant. -/
theorem engInv_runRound (rand : Nat → Nat) (s : EngineState) (h : EngInv s) :
    EngInv (runRound rand s).2 := by
  by_cases hlt : s.currentRound < (TOTAL_ROUNDS : Int)
  · obtain ⟨⟨hlen, hidx⟩, hc0, hch⟩ := h
    rw [runRound_eq_of_lt rand s hlt]
    refine ⟨⟨?_, ?_⟩, ?_, ?_⟩
    · simp only [List.length_append, List.length_cons, List.length_nil]
      push_cast
      omega
    · intro i snap hi
      by_cases hilt : i < s.stateHistory.length
      · rw [List.getElem?_append_left hilt] at hi
        exact hidx i snap hi
      · have hle : s.stateHistory.length ≤ i := Nat.le_of_not_lt hilt
        rw [List.getElem?_append_right hle] at hi
        cases hik : i - s.stateHistory.length with
        | zero =>
            rw [hik] at hi
            simp only [List.getElem?_cons_zero, Option.some.injEq] at hi
            rw [← hi]
            simp only [getGameState]
            have hieq : i = s.stateHistory.length := by omega
            rw [hieq]
            exact hlen.symm
        | succ k =>
            rw [hik] at hi
            simp at hi
    · intro h0
      dsimp only at h0
      exfalso
      omega
    · intro snap hm h0
      rcases List.mem_append.mp hm with hold | hnew
      · exact hch snap hold h0
      · simp only [List.mem_singleton] at hnew
        rw [hnew] at h0 ⊢
        simp only [getGameState] at h0 ⊢
        exact hc0 h0
  · have : runRound rand s = (false, s) := by
      simp [runRound, hlt]
    rw [this]
    exact h

/-- `undoLastRound` preserves the invariant. -/
theorem engInv_undo (s : EngineState) (h : EngInv s) :
    EngInv (undoLastRound s).2 := by
  obtain ⟨⟨hlen, hidx⟩, hc0, hch⟩ := h
  cases hl : s.stateHistory.getLast? with
  | none =>
      rw [undoLastRound_eq_none s hl]
      exact ⟨⟨hlen, hidx⟩, hc0, hch⟩
  | some prev =>
      rw [undoLastRound_eq_some s prev hl]
      have hne : s.stateHistory ≠ [] := by
        intro hnil
        rw [hnil] at hl
        simp at hl
      have hpos : 0 < s.stateHistory.length := List.length_pos.mpr hne
      have hprev : s.stateHistory[s.stateHistory.length - 1]? = some prev := by
        rw [← List.getLast?_eq_getElem?]
        exact hl
      have hpr : prev.currentRound = ((s.stateHistory.length - 1 : Nat) : Int) :=
        hidx _ prev hprev
      refine ⟨⟨?_, ?_⟩, ?_, ?_⟩
      · simp only [List.length_dropLast]
        rw [hpr]
      · intro i snap hi
        rw [List.getElem?_dropLast] at hi
        by_cases hic : i < s.stateHistory.length - 1
        · rw [if_pos hic] at hi
          exact hidx i snap hi
        · rw [if_neg hic] at hi
          cases hi
      · intro h0
        exact hch prev (List.getElem?_mem hprev) h0
      · intro snap hm h0
        exact hch snap ((List.dropLast_sublist _).subset hm) h0

/-- The loop body preserves the invariant for any amount of fuel. -/
theorem engInv_runGameLoopAux (rands : Nat → Nat → Nat) :
    ∀ (fuel : Nat) (s : EngineState), EngInv s →
      EngInv (runGameLoopAux rands fuel s) := by
  intro fuel
  induction fuel with
  | zero => intro s h; exact h
  | succ fuel ih =>
      intro s h
      by_cases hlt : s.currentRound < (TOTAL_ROUNDS : Int)
      · simp only [runGameLoopAux, if_pos hlt]
        exact ih _ (engInv_runRound _ s h)
      · simp only [runGameLoopAux, if_neg hlt]
        exact h

/-- `runGameLoop` preserves the invariant. -/
theorem engInv_runGameLoop (rands : Nat → Nat → Nat) (s : EngineState)
    (h : EngInv s) : EngInv (runGameLoop rands s) :=
  engInv_runGameLoopAux rands _ s h

/-- `resetGame` establishes the invariant outright. -/
theorem engInv_resetGame (s : EngineState) : EngInv (resetGame s) := by
  refine ⟨⟨by simp [resetGame], ?_⟩, ?_, ?_⟩
  · intro i snap hi
    simp [resetGame] at hi
  · intro _
    show ∀ p ∈ initialPlayers, p.cardHeld = none
    decide
  · intro snap hm
    simp [resetGame] at hm

/-- `modifyPlayerName` preserves the invariant (it only edits a name). -/
theorem engInv_modifyPlayerName (i : Nat) (n : String) (s : EngineState)
    (h : EngInv s) : EngInv (modifyPlayerName i n s) := by
  unfold modifyPlayerName
  split
  · next hcond =>
      obtain ⟨hh, hc0, hch⟩ := h
      refine ⟨hh, ?_, hch⟩
      intro h0 p hp
      rcases List.mem_or_eq_of_mem_set hp with hmem | heq
      · exact hc0 h0 p hmem
      · have hcard := hc0 h0 (s.players.get ⟨i, hcond.1⟩) (List.get_mem _ _ _)
        rw [heq]
        exact hcard
  · exact h

/-- Engine states reachable from a fresh `createGameLogic()` engine through
the engine's own operations other than `setGameState`. -/
inductive Reach : EngineState → Prop
  | init : Reach initialEngine
  | step (rand : Nat → Nat) {s : EngineState} : Reach s → Reach (runRound rand s).2
  | undo {s : EngineState} : Reach s → Reach (undoLastRound s).2
  | loop (rands : Nat → Nat → Nat) {s : EngineState} :
      Reach s → Reach (runGameLoop rands s)
  | reset {s : EngineState} : Reach s → Reach (resetGame s)
  | renameOp (i : Nat) (n : String) {s : EngineState} :
      Reach s → Reach (modifyPlayerName i n s)

/-- Any import-free reachable state satisfies the joint invariant. -/
theorem reach_engInv (s : EngineState) (hr : Reach s) : EngInv s := by
  induction hr with
  | init => exact engInv_init
  | step rand _ ih => exact engInv_runRound rand _ ih
  | undo _ ih => exact engInv_undo _ ih
  | loop rands _ ih => exact engInv_runGameLoop rands _ ih
  | reset _ _ => exact engInv_resetGame _
  | renameOp i n _ ih => exact engInv_modifyPlayerName i n _ ih

/-- C5 (amended): for every state reachable from a fresh engine by
`runRound`, `undoLastRound`, `runGameLoop`, `resetGame` and
`modifyPlayerName`, the history stack's length equals `currentRound`.
`setGameState` on a live engine is excluded: it overwrites `currentRound`
while leaving the history untouched, breaking the equality (see the
counterexample). -/
theorem history_length_eq_currentRound (s : EngineState) (hr : Reach s) :
    (s.stateHistory.length : Int) = s.currentRound :=
  (reach_engInv s hr).1.1

/-- Witness for C5 (amended): after one round on a fresh engine the history
holds exactly one entry and the round counter is 1. -/
theorem history_length_eq_currentRound_witness :
    (((runRound (fun _ => 0) initialEngine).2.stateHistory.length : Int) =
      (runRound (fun _ => 0) initialEngine).2.currentRound) :=
  history_length_eq_currentRound (runRound (fun _ => 0) initialEngine).2
    (Reach.step (fun _ => 0) Reach.init)

/-- Counterexample to C5 as stated: play one round (history length 1), then
load a state at round 5 with `setGameState`; the history still has one
entry but `currentRound` is 5, so the equality is not preserved by
`importState` on a live engine mid-game. -/
theorem history_length_eq_currentRound_ce :
    ((setGameStateT initialPlayers 5
        (runRound (fun _ => 0) initialEngine).2).stateHistory.length : Int) ≠
      (setGameStateT initialPlayers 5
        (runRound (fun _ => 0) initialEngine).2).currentRound := by
  decide

/-- C9 (amended): in every state reachable from a fresh engine without
`setGameState`, `currentRound = 0` implies every player's card is null;
this covers the fresh engine, `resetGame`, and undoing back to round 0.
`setGameState` is excluded: it adopts any roster verbatim, also one with
cards set at round 0 (see the counterexample). -/
theorem round_zero_all_cards_null (s : EngineState) (hr : Reach s)
    (h0 : s.currentRound = 0) : ∀ p ∈ s.players, p.cardHeld = none :=
  (reach_engInv s hr).2.1 h0

/-- Witness for C9 (amended): undoing the only round played returns to
round 0 with all cards null. -/
theorem round_zero_all_cards_null_witness :
    (undoLastRound (runRound (fun _ => 0) initialEngine).2).2.players.map
      Player.cardHeld = [none, none, none, none] := by
  have h := round_zero_all_cards_null
    (undoLastRound (runRound (fun _ => 0) initialEngine).2).2
    (Reach.undo (Reach.step (fun _ => 0) Reach.init))
    (by decide)
  revert h
  decide

/-- Counterexample to C9 as stated: `setGameState` accepts a round-0 state
whose players hold cards, so after that import `currentRound = 0` while a
player's `cardHeld` is not null. -/
theorem round_zero_all_cards_null_ce :
    (setGameStateT [{ name := "Test 1", cardHeld := some 5, score := 0 }] 0
        initialEngine).currentRound = 0 ∧
    ¬ ∀ p ∈ (setGameStateT [{ name := "Test 1", cardHeld := some 5, score := 0 }]
        0 initialEngine).players, p.cardHeld = none := by
  decide

/-- Untyped JavaScript values, as far as `setGameState`'s validation can
distinguish them; numbers are restricted to the integers the engine deals
in. -/
inductive JSValue where
  | vnull
  | vundefined
  | vnum (n : Int)
  | vstr (s : String)
  | vbool (b : Bool)
  | varr (elems : List JSValue)
  | vobj (fields : List (String × JSValue))
deriving Repr

/-- JavaScript truthiness, as used by `state && state.players`. -/
def truthy : JSValue → Bool
  | .vnull => false
  | .vundefined => false
  | .vnum n => n != 0
  | .vstr s => s != ""
  | .vbool b => b
  | .varr _ => true
  | .vobj _ => true

/-- Property access `v.k`: the field of an object when present, `undefined`
otherwise (primitives and arrays have neither of the accessed properties;
the null/undefined TypeError path is unreachable behind the `state &&`
guard). -/
def getField : JSValue → String → JSValue
  | .vobj fs, k =>
      match fs.lookup k with
      | some v => v
      | none => .vundefined
  | _, _ => .vundefined

/-- `typeof v === 'number'`. -/
def isNumber : JSValue → Bool
  | .vnum _ => true
  | _ => false

/-- The numeric value of a number (only used behind `isNumber`). -/
def numVal : JSValue → Int
  | .vnum n => n
  | _ => 0

/-- Whether `v` is an object carrying field `k` at all (used to state C4's
"has a players field"). -/
def hasField : JSValue → String → Bool
  | .vobj fs, k => (fs.lookup k).isSome
  | _, _ => false

/-- `Array.isArray`, to state C10's "non-array". -/
def isArray : JSValue → Bool
  | .varr _ => true
  | _ => false

mutual

/-- `JSON.parse(JSON.stringify(v))`: a deep copy.  The only values altered
are `undefined` members (dropped from objects, turned into `null` in array
slots), as in JavaScript; callers only apply it behind a truthiness check,
so the top-level `undefined` is unreachable there. -/
def jsonRT : JSValue → JSValue
  | .vnull => .vnull
  | .vundefined => .vundefined
  | .vnum n => .vnum n
  | .vstr s => .vstr s
  | .vbool b => .vbool b
  | .varr es => .varr (jsonRTArr es)
  | .vobj fs => .vobj (jsonRTObj fs)

/-- Array slots under the JSON round trip: `undefined` becomes `null`. -/
def jsonRTArr : List JSValue → List JSValue
  | [] => []
  | .vundefined :: es => .vnull :: jsonRTArr es
  | e :: es => jsonRT e :: jsonRTArr es

/-- Object fields under the JSON round trip: `undefined` members drop. -/
def jsonRTObj : List (String × JSValue) → List (String × JSValue)
  | [] => []
  | (_, .vundefined) :: fs => jsonRTObj fs
  | (k, e) :: fs => (k, jsonRT e) :: jsonRTObj fs

end

/-- The `players` and `currentRound` variables at the untyped level, for
the validation claims about `setGameState`; the history is omitted because
`setGameState` never touches it (lines 602-609 assign only `players` and
`currentRound`). -/
structure RawEngine where
  players : JSValue
  currentRound : Int
deriving Repr

/-- `setGameState` (lines 602-609) on an arbitrary JavaScript argument:
the guard is `state && state.players && typeof state.currentRound ===
'number'`; on success the engine adopts a JSON deep copy of
`state.players` and `state.currentRound` and returns `true`, otherwise
nothing changes and `false` is returned. -/
def setGameState (state : JSValue) (e : RawEngine) : Bool × RawEngine :=
  if truthy state && truthy (getField state "players") &&
      isNumber (getField state "currentRound") then
    (true, { players := jsonRT (getField state "players"),
             currentRound := numVal (getField state "currentRound") })
  else (false, e)

/-- A player object at the untyped level. -/
def encodePlayer (p : Player) : JSValue :=
  .vobj [("name", .vstr p.name),
         ("cardHeld", match p.cardHeld with
                      | some v => .vnum v
                      | none => .vnull),
         ("score", .vnum p.score)]

/-- A roster array at the untyped level. -/
def encodePlayers (ps : List Player) : JSValue := .varr (ps.map encodePlayer)

/-- The fresh engine's variables at the untyped level. -/
def rawInitial : RawEngine :=
  { players := encodePlayers initialPlayers, currentRound := 0 }

/-- Any JSON-encoded roster array and integer round pass the validation:
this ties the typed `setGameStateT` action to the untyped `setGameState`. -/
theorem setGameState_accepts_encoded (ps : List Player) (r : Int)
    (e : RawEngine) :
    (setGameState (JSValue.vobj [("players", encodePlayers ps),
        ("currentRound", JSValue.vnum r)]) e).1 = true := by
  simp [setGameState, truthy, getField, encodePlayers, isNumber, List.lookup]

/-- C4 (amended): `setGameState` returns `false` and leaves the prior
engine state completely unchanged on each of `null`, `undefined`, `{}`,
`{players: []}` alone, `{currentRound: 0}` alone, and
`{players: [], currentRound: "invalid"}`; and every input that is truthy,
has a truthy `players` field and a numeric `currentRound` is accepted:
`true` is returned and the engine adopts the JSON deep copy of
`state.players` together with `state.currentRound`.  (Mere presence of a
`players` field is not enough: a falsy one, e.g. `null`, is rejected — see
the counterexample.) -/
theorem setGameState_validation (e : RawEngine) (v : JSValue)
    (h1 : truthy v = true) (h2 : truthy (getField v "players") = true)
    (h3 : isNumber (getField v "currentRound") = true) :
    setGameState JSValue.vnull e = (false, e) ∧
    setGameState JSValue.vundefined e = (false, e) ∧
    setGameState (JSValue.vobj []) e = (false, e) ∧
    setGameState (JSValue.vobj [("players", JSValue.varr [])]) e = (false, e) ∧
    setGameState (JSValue.vobj [("currentRound", JSValue.vnum 0)]) e
      = (false, e) ∧
    setGameState (JSValue.vobj [("players", JSValue.varr []),
        ("currentRound", JSValue.vstr "invalid")]) e = (false, e) ∧
    setGameState v e =
      (true, { players := jsonRT (getField v "players"),
               currentRound := numVal (getField v "currentRound") }) := by
  refine ⟨rfl, rfl, rfl, rfl, rfl, rfl, ?_⟩
  simp [setGameState, h1, h2, h3]

/-- Witness for C4 (amended): the six malformed inputs are rejected on the
fresh engine, and `{players: [], currentRound: 3}` (truthy `players`,
numeric round) is adopted. -/
theorem setGameState_validation_witness :
    truthy (JSValue.vobj [("players", JSValue.varr []),
        ("currentRound", JSValue.vnum 3)]) = true ∧
    setGameState JSValue.vnull rawInitial = (false, rawInitial) ∧
    setGameState (JSValue.vobj [("players", JSValue.varr [])]) rawInitial
      = (false, rawInitial) ∧
    setGameState (JSValue.vobj [("players", JSValue.varr []),
        ("currentRound", JSValue.vnum 3)]) rawInitial =
      (true, { players := jsonRT (getField (JSValue.vobj
                 [("players", JSValue.varr []),
                  ("currentRound", JSValue.vnum 3)]) "players"),
               currentRound := numVal (getField (JSValue.vobj
                 [("players", JSValue.varr []),
                  ("currentRound", JSValue.vnum 3)]) "currentRound") }) :=
  ⟨rfl,
   (setGameState_validation rawInitial
      (JSValue.vobj [("players", JSValue.varr []),
        ("currentRound", JSValue.vnum 3)]) rfl rfl rfl).1,
   (setGameState_validation rawInitial
      (JSValue.vobj [("players", JSValue.varr []),
        ("currentRound", JSValue.vnum 3)]) rfl rfl rfl).2.2.2.1,
   (setGameState_validation rawInitial
      (JSValue.vobj [("players", JSValue.varr []),
        ("currentRound", JSValue.vnum 3)]) rfl rfl rfl).2.2.2.2.2.2⟩

/-- Counterexample to C4 as stated: `{players: null, currentRound: 0}` is
non-null, has a `players` field and a numeric `currentRound`, yet
`setGameState` returns `false` (the check is truthiness of
`state.players`, and `null` is falsy) and changes nothing. -/
theorem setGameState_validation_ce :
    JSValue.vobj [("players", JSValue.vnull), ("currentRound", JSValue.vnum 0)]
      ≠ JSValue.vnull ∧
    hasField (JSValue.vobj [("players", JSValue.vnull),
        ("currentRound", JSValue.vnum 0)]) "players" = true ∧
    isNumber (getField (JSValue.vobj [("players", JSValue.vnull),
        ("currentRound", JSValue.vnum 0)]) "currentRound") = true ∧
    setGameState (JSValue.vobj [("players", JSValue.vnull),
        ("currentRound", JSValue.vnum 0)]) rawInitial = (false, rawInitial) :=
  ⟨fun h => JSValue.noConfusion h, rfl, rfl, rfl⟩

/-- C10: the structural validation of `setGameState` checks only truthiness
of the `players` field, not that it is an array: `{players: "winners",
currentRound: 3}` has a truthy non-array `players`, is accepted, and the
engine adopts the (JSON round-tripped) string itself as its roster. -/
theorem setGameState_accepts_nonarray_players :
    isArray (JSValue.vstr "winners") = false ∧
    truthy (JSValue.vstr "winners") = true ∧
    setGameState (JSValue.vobj [("players", JSValue.vstr "winners"),
        ("currentRound", JSValue.vnum 3)]) rawInitial =
      (true, { players := JSValue.vstr "winners", currentRound := 3 }) :=
  ⟨rfl, rfl, rfl⟩

/-- Address of a player object in the reference model. -/
abbrev Addr := Nat

/-- Reference-level engine for the aliasing claims (C7/C8): the closure's
`players` variable is an array of references to player objects living in a
heap (an allocation list indexed by address), next to the `currentRound`
primitive.  The history plays no role in these two accessor claims and is
omitted. -/
structure EngineH where
  heap : List Player
  playersArr : List Addr
  currentRound : Int

/-- Dereference one player object. -/
def readObj (h : List Player) (a : Addr) : Player :=
  (h[a]?).getD { name := "", cardHeld := none, score := 0 }

/-- The roster a caller observes through a list of references. -/
def rosterView (h : List Player) (arr : List Addr) : List Player :=
  arr.map (readObj h)

/-- Overwrite the player object at address `a`: the mutation a caller can
apply to a player object it got hold of. -/
def heapWrite (h : List Player) (a : Addr) (p : Player) : List Player :=
  h.set a p

/-- `getPlayers` (line 622) at the reference level: `() => players` hands
out the internal array itself — the same references, not a copy. -/
def getPlayersH (e : EngineH) : List Addr := e.playersArr

/-- `getCurrentRound` (line 627): a primitive, returned by value. -/
def getCurrentRoundH (e : EngineH) : Int := e.currentRound

/-- `getTotalRounds` (line 626): a primitive constant, returned by value. -/
def getTotalRoundsH (_e : EngineH) : Nat := TOTAL_ROUNDS

/-- `getGameState` (lines 594-600) at the reference level: the JSON round
trip allocates a fresh copy of every player object (appended to the heap
at the next free addresses) and the returned snapshot references the
copies, next to the two primitives; the engine's own fields are
untouched. -/
def getGameStateH (e : EngineH) : (List Addr × Int × Nat) × EngineH :=
  ((List.range' e.heap.length e.playersArr.length, e.currentRound, TOTAL_ROUNDS),
   { e with heap := e.heap ++ rosterView e.heap e.playersArr })

/-- The fresh engine at the reference level: four player objects on the
heap and the roster referencing them. -/
def engineH0 : EngineH :=
  { heap := initialPlayers, playersArr := [0, 1, 2, 3], currentRound := 0 }

/-- Reads below the old heap size are unaffected by an append. -/
theorem readObj_append (h t : List Player) (a : Addr) (ha : a < h.length) :
    readObj (h ++ t) a = readObj h a := by
  unfold readObj
  rw [List.getElem?_append_left ha]

/-- Reading the appended block through its consecutive fresh addresses
yields exactly the appended block. -/
theorem rosterView_append_fresh (t : List Player) :
    ∀ h : List Player,
      rosterView (h ++ t) (List.range' h.length t.length) = t := by
  induction t with
  | nil => intro h; rfl
  | cons p t ih =>
      intro h
      simp only [List.length_cons, List.range'_succ, rosterView, List.map_cons]
      have hhead : readObj (h ++ p :: t) h.length = p := by
        unfold readObj
        rw [List.getElem?_append_right (Nat.le_refl _)]
        simp
      have htail : List.map (readObj (h ++ p :: t))
          (List.range' (h.length + 1) t.length) = t := by
        have hret := ih (h ++ [p])
        simp only [rosterView, List.length_append, List.length_cons,
          List.length_nil] at hret
        rw [List.append_cons]
        exact hret
      rw [hhead, htail]

/-- The engine's own references read the same after the copy is appended. -/
theorem rosterView_append_engine (e : EngineH)
    (hw : ∀ a ∈ e.playersArr, a < e.heap.length) (t : List Player) :
    rosterView (e.heap ++ t) e.playersArr = rosterView e.heap e.playersArr := by
  unfold rosterView
  exact List.map_congr_left (fun a ha => readObj_append _ _ _ (hw a ha))

/-- C7: `getGameState` returns `{players, currentRound, totalRounds}` equal
to the engine's state at call time, leaves the engine's own state
untouched, and the returned roster is a deep independent copy: its
references are fresh, so overwriting any player object reachable from the
returned snapshot leaves every player object the engine references
unchanged. -/
theorem getGameState_deep_copy (e : EngineH)
    (hw : ∀ a ∈ e.playersArr, a < e.heap.length) :
    rosterView (getGameStateH e).2.heap (getGameStateH e).1.1 =
      rosterView e.heap e.playersArr ∧
    (getGameStateH e).1.2.1 = e.currentRound ∧
    (getGameStateH e).1.2.2 = TOTAL_ROUNDS ∧
    (getGameStateH e).2.playersArr = e.playersArr ∧
    (getGameStateH e).2.currentRound = e.currentRound ∧
    rosterView (getGameStateH e).2.heap e.playersArr =
      rosterView e.heap e.playersArr ∧
    (∀ a ∈ (getGameStateH e).1.1, ∀ p : Player,
      rosterView (heapWrite (getGameStateH e).2.heap a p) e.playersArr =
        rosterView e.heap e.playersArr) := by
  have hvlen : (rosterView e.heap e.playersArr).length = e.playersArr.length := by
    simp [rosterView]
  have hcopy : rosterView (e.heap ++ rosterView e.heap e.playersArr)
      (List.range' e.heap.length e.playersArr.length) =
      rosterView e.heap e.playersArr := by
    have hfresh := rosterView_append_fresh (rosterView e.heap e.playersArr) e.heap
    rw [hvlen] at hfresh
    exact hfresh
  refine ⟨hcopy, rfl, rfl, rfl, rfl,
    rosterView_append_engine e hw _, ?_⟩
  intro a ha p
  have hage : e.heap.length ≤ a := by
    simp only [getGameStateH, List.mem_range'] at ha
    obtain ⟨i, _, hi⟩ := ha
    omega
  have hwrite : rosterView
      (heapWrite (e.heap ++ rosterView e.heap e.playersArr) a p) e.playersArr =
      rosterView (e.heap ++ rosterView e.heap e.playersArr) e.playersArr := by
    unfold rosterView heapWrite
    refine List.map_congr_left ?_
    intro b hb
    have hblt := hw b hb
    unfold readObj
    have hab : a ≠ b :=
      Ne.symm (Nat.ne_of_lt (lt_of_lt_of_le hblt hage))
    rw [List.getElem?_set_ne hab]
  calc rosterView (heapWrite (getGameStateH e).2.heap a p) e.playersArr
      = rosterView (e.heap ++ rosterView e.heap e.playersArr) e.playersArr :=
        hwrite
    _ = rosterView e.heap e.playersArr := rosterView_append_engine e hw _

/-- Witness for C7: on the fresh engine the exported snapshot equals the
engine state, the engine is unchanged, and writing score 99 into the first
copied player object leaves the engine's roster view unchanged. -/
theorem getGameState_deep_copy_witness :
    rosterView (getGameStateH engineH0).2.heap (getGameStateH engineH0).1.1 =
      rosterView engineH0.heap engineH0.playersArr ∧
    rosterView (getGameStateH engineH0).2.heap engineH0.playersArr =
      rosterView engineH0.heap engineH0.playersArr ∧
    rosterView (heapWrite (getGameStateH engineH0).2.heap 4
        { name := "Player 1", cardHeld := none, score := 99 })
        engineH0.playersArr =
      rosterView engineH0.heap engineH0.playersArr :=
  ⟨(getGameState_deep_copy engineH0 (by decide)).1,
   (getGameState_deep_copy engineH0 (by decide)).2.2.2.2.2.1,
   (getGameState_deep_copy engineH0 (by decide)).2.2.2.2.2.2 4 (by decide)
     { name := "Player 1", cardHeld := none, score := 99 }⟩

/-- C8 (amended): the accessors reflect the engine state directly and
immediately (`getPlayers` returns the internal roster array itself,
`getCurrentRound` and `getTotalRounds` return the current primitives), so
they are never stale; but `getPlayers` is a live reference rather than a
read-only view: overwriting the player object behind entry `i` of the
returned array changes the engine's own roster at exactly position `i`. -/
theorem getPlayers_live_reference (e : EngineH) (i : Nat) (p : Player)
    (hw : ∀ a ∈ e.playersArr, a < e.heap.length) (hnd : e.playersArr.Nodup)
    (hi : i < e.playersArr.length) :
    getPlayersH e = e.playersArr ∧
    getCurrentRoundH e = e.currentRound ∧
    getTotalRoundsH e = TOTAL_ROUNDS ∧
    rosterView (heapWrite e.heap ((getPlayersH e).getD i 0) p) e.playersArr =
      (rosterView e.heap e.playersArr).set i p := by
  refine ⟨rfl, rfl, rfl, ?_⟩
  have ha0 : (getPlayersH e).getD i 0 = e.playersArr[i] := by
    unfold getPlayersH
    rw [List.getD_eq_getElem?_getD, List.getElem?_eq_getElem hi]
    rfl
  rw [ha0]
  apply List.ext_getElem?
  intro j
  by_cases hji : j = i
  · subst hji
    have hjm : j < (rosterView e.heap e.playersArr).length := by
      simp only [rosterView, List.length_map]
      exact hi
    rw [List.getElem?_set_self hjm]
    unfold rosterView
    rw [List.getElem?_map, List.getElem?_eq_getElem hi]
    simp only [Option.map_some']
    have haddr : e.playersArr[j] < e.heap.length :=
      hw _ (List.getElem_mem hi)
    unfold readObj heapWrite
    rw [List.getElem?_set_self haddr]
    rfl
  · have hij : i ≠ j := fun h => hji h.symm
    rw [List.getElem?_set_ne hij]
    unfold rosterView
    rw [List.getElem?_map, List.getElem?_map]
    cases hjb : e.playersArr[j]? with
    | none => rfl
    | some b =>
        simp only [Option.map_some', Option.some.injEq]
        have hjlen : j < e.playersArr.length := by
          by_contra hc
          rw [List.getElem?_eq_none (Nat.le_of_not_lt hc)] at hjb
          cases hjb
        have hbj : e.playersArr[j] = b := by
          rw [List.getElem?_eq_getElem hjlen] at hjb
          cases hjb
          rfl
        have hbne : e.playersArr[i] ≠ b := by
          rw [← hbj]
          intro hdup
          apply hji
          -- distinct positions of a Nodup list hold distinct addresses,
          -- so equality of the stored addresses forces j = i
          exact (List.Nodup.getElem_inj_iff hnd).mp hdup.symm
        unfold readObj heapWrite
        rw [List.getElem?_set_ne hbne]

/-- Witness for C8 (amended): on the fresh engine, writing score 99 into
the object behind entry 0 of the array returned by `getPlayers` makes the
engine's first roster entry carry score 99. -/
theorem getPlayers_live_reference_witness :
    rosterView (heapWrite engineH0.heap ((getPlayersH engineH0).getD 0 0)
        { name := "Player 1", cardHeld := none, score := 99 })
      engineH0.playersArr =
    (rosterView engineH0.heap engineH0.playersArr).set 0
      { name := "Player 1", cardHeld := none, score := 99 } :=
  (getPlayers_live_reference engineH0 0
     { name := "Player 1", cardHeld := none, score := 99 }
     (by decide) (by decide) (by decide)).2.2.2

/-- Counterexample to C8 as stated: mutating the value obtained from the
`getPlayers` accessor does change engine-internal state — after the write,
the engine's roster view differs from what it was. -/
theorem getPlayers_live_reference_ce :
    rosterView (heapWrite engineH0.heap ((getPlayersH engineH0).getD 0 0)
        { name := "Player 1", cardHeld := none, score := 99 })
      engineH0.playersArr ≠
    rosterView engineH0.heap engineH0.playersArr := by
  decide
